import Mathlib

/-!
Shallow embedding of `scripts/validate-content.ts`, the content validator of the
system-articles repository, together with theorems settling the specification
claims about it.

The filesystem the script reads (registry file, locale directories, article
files) is modelled by the `FS` structure.  External library behaviour is
modelled at its interface: `JSON.parse` / gray-matter either fail (the
`RawFile.parseFail` case) or yield structured data (a `Json` value), and the
two zod schemas are translated field by field into `SystemConfig.safeParse`
and `SystemArticleFrontmatter.safeParse`.  Every console line the script can
emit is one constructor of `Line`; `render` reproduces its exact text, and the
module-level `errorCount` / `warnCount` counters of the script are recovered
by counting the lines produced by `logError` / `logWarn` call sites.
-/

namespace ValidateContent

/-- The three supported locale codes, in the order of the `LOCALES` constant of
the script (`["ru", "en", "cz"]`). -/
inductive Locale where
  | ru
  | en
  | cz
deriving DecidableEq

/-- Embeds `const LOCALES = ["ru", "en", "cz"]`. -/
def LOCALES : List Locale := [Locale.ru, Locale.en, Locale.cz]

/-- The string code of a locale, used when the script builds paths and log
messages. -/
def Locale.code : Locale → String
  | Locale.ru => "ru"
  | Locale.en => "en"
  | Locale.cz => "cz"

/-- Structured data values, as produced by `JSON.parse` or by gray-matter's
YAML frontmatter parser.  Numbers are modelled as integers; the validator
never inspects a numeric value beyond its type. -/
inductive Json where
  | null
  | bool (value : Bool)
  | num (value : Int)
  | str (value : String)
  | arr (items : List Json)
  | obj (entries : List (String × Json))

/-- Key lookup in a parsed object (JS object property access). -/
def lookupField : List (String × Json) → String → Option Json
  | [], _ => none
  | (k, v) :: rest, key => if k = key then some v else lookupField rest key

/-- One zod issue: a field path and a human-readable message, as logged by the
script's itemized schema-error loops. -/
structure Issue where
  path : String
  msg : String

/-- Embeds the `LocalizedString` zod object: one string per locale, all three
required. -/
structure LocalizedString where
  ru : String
  en : String
  cz : String

/-- Embeds the `LocalizedKeywords` zod object: one string array per locale,
all three required. -/
structure LocalizedKeywords where
  ru : List String
  en : List String
  cz : List String

/-- Embeds `z.enum(["beginner", "intermediate", "advanced"])`. -/
inductive Difficulty where
  | beginner
  | intermediate
  | advanced
deriving DecidableEq

/-- Embeds the `SystemArticleEntry` zod object (one registry entry). -/
structure RegistryEntry where
  slug : String
  route : String
  name : LocalizedString
  description : Option LocalizedString
  keywords : LocalizedKeywords
  pinned : Bool
  order : Option Int

/-- Embeds the `SystemConfig` zod object: `{ articles: SystemArticleEntry[] }`. -/
structure SystemConfig where
  articles : List RegistryEntry

/-- Embeds the `SystemArticleFrontmatter` zod object. -/
structure Frontmatter where
  title : LocalizedString
  slug : String
  keywords : LocalizedKeywords
  created : String
  updated : Option String
  author : Option String
  difficulty : Option Difficulty
  estimatedReadTime : Option Int

/-- Combines two field-validation results, accumulating issues from both sides
the way a zod object parse reports every violated field. -/
def exceptZip : Except (List Issue) α → Except (List Issue) β →
    Except (List Issue) (α × β)
  | Except.ok a, Except.ok b => Except.ok (a, b)
  | Except.error e1, Except.error e2 => Except.error (e1 ++ e2)
  | Except.error e1, Except.ok _ => Except.error e1
  | Except.ok _, Except.error e2 => Except.error e2

/-- `z.string()` on a (possibly absent) object field. -/
def expectString (path : String) : Option Json → Except (List Issue) String
  | some (Json.str s) => Except.ok s
  | some _ => Except.error [⟨path, "Invalid input: expected string"⟩]
  | none => Except.error [⟨path, "Required"⟩]

/-- `z.string().optional()` on a (possibly absent) object field. -/
def expectOptString (path : String) : Option Json → Except (List Issue) (Option String)
  | none => Except.ok none
  | some (Json.str s) => Except.ok (some s)
  | some _ => Except.error [⟨path, "Invalid input: expected string"⟩]

/-- Element-wise validation of `z.array(z.string())`, itemizing the issue of
every non-string element. -/
def expectStringItems (path : String) (i : Nat) : List Json → Except (List Issue) (List String)
  | [] => Except.ok []
  | x :: rest =>
    match exceptZip (expectString (path ++ "." ++ toString i) (some x))
        (expectStringItems path (i + 1) rest) with
    | Except.ok (s, ss) => Except.ok (s :: ss)
    | Except.error es => Except.error es

/-- `z.array(z.string())` on a (possibly absent) object field. -/
def expectStringArray (path : String) : Option Json → Except (List Issue) (List String)
  | some (Json.arr xs) => expectStringItems path 0 xs
  | some _ => Except.error [⟨path, "Invalid input: expected array"⟩]
  | none => Except.error [⟨path, "Required"⟩]

/-- The `LocalizedString` schema applied to a (possibly absent) field. -/
def parseLocalizedString (path : String) : Option Json → Except (List Issue) LocalizedString
  | some (Json.obj fields) =>
    match exceptZip (expectString (path ++ ".ru") (lookupField fields "ru"))
        (exceptZip (expectString (path ++ ".en") (lookupField fields "en"))
          (expectString (path ++ ".cz") (lookupField fields "cz"))) with
    | Except.ok (r, e, c) => Except.ok ⟨r, e, c⟩
    | Except.error es => Except.error es
  | some _ => Except.error [⟨path, "Invalid input: expected object"⟩]
  | none => Except.error [⟨path, "Required"⟩]

/-- `LocalizedString.optional()` applied to a (possibly absent) field. -/
def parseOptLocalizedString (path : String) : Option Json →
    Except (List Issue) (Option LocalizedString)
  | none => Except.ok none
  | some j =>
    match parseLocalizedString path (some j) with
    | Except.ok v => Except.ok (some v)
    | Except.error es => Except.error es

/-- The `LocalizedKeywords` schema applied to a (possibly absent) field. -/
def parseLocalizedKeywords (path : String) : Option Json → Except (List Issue) LocalizedKeywords
  | some (Json.obj fields) =>
    match exceptZip (expectStringArray (path ++ ".ru") (lookupField fields "ru"))
        (exceptZip (expectStringArray (path ++ ".en") (lookupField fields "en"))
          (expectStringArray (path ++ ".cz") (lookupField fields "cz"))) with
    | Except.ok (r, e, c) => Except.ok ⟨r, e, c⟩
    | Except.error es => Except.error es
  | some _ => Except.error [⟨path, "Invalid input: expected object"⟩]
  | none => Except.error [⟨path, "Required"⟩]

/-- `z.boolean().default(false)`: an absent field yields `false`. -/
def parsePinnedField (path : String) : Option Json → Except (List Issue) Bool
  | none => Except.ok false
  | some (Json.bool b) => Except.ok b
  | some _ => Except.error [⟨path, "Invalid input: expected boolean"⟩]

/-- `z.number().optional()` on a (possibly absent) object field. -/
def expectOptNumber (path : String) : Option Json → Except (List Issue) (Option Int)
  | none => Except.ok none
  | some (Json.num n) => Except.ok (some n)
  | some _ => Except.error [⟨path, "Invalid input: expected number"⟩]

/-- A character allowed by the registry slug pattern `/^[a-z0-9-]+$/`. -/
def isSlugChar (c : Char) : Bool := c.isLower || c.isDigit || c == '-'

/-- A character allowed by the frontmatter slug pattern `/^[a-z0-9_-]+$/`. -/
def isFmSlugChar (c : Char) : Bool := c.isLower || c.isDigit || c == '-' || c == '_'

/-- The registry slug pattern `/^[a-z0-9-]+$/` (nonempty, all chars allowed). -/
def slugPattern (s : String) : Bool := !s.data.isEmpty && s.data.all isSlugChar

/-- The frontmatter slug pattern `/^[a-z0-9_-]+$/`. -/
def fmSlugPattern (s : String) : Bool := !s.data.isEmpty && s.data.all isFmSlugChar

/-- JS `String.prototype.startsWith`, on the character lists of the strings. -/
def strStartsWith (s t : String) : Bool := s.data.take t.data.length == t.data

/-- JS `String.prototype.endsWith`, on the character lists of the strings. -/
def strEndsWith (s t : String) : Bool :=
  decide (t.data.length ≤ s.data.length) &&
    (s.data.drop (s.data.length - t.data.length) == t.data)

/-- Node's `path.basename(file, ext)` for slash-free names: the extension is
stripped when it is a suffix of the name and the name is not the extension
itself. -/
def jsBasename (f ext : String) : String :=
  if strEndsWith f ext && f != ext then
    String.mk (f.data.take (f.data.length - ext.data.length))
  else f

/-- `z.string().regex(/^[a-z0-9-]+$/)` — the registry `slug` field. -/
def parseSlugField (path : String) (j : Option Json) : Except (List Issue) String :=
  match expectString path j with
  | Except.ok s =>
    if slugPattern s then Except.ok s
    else Except.error [⟨path, "Invalid string: must match pattern"⟩]
  | Except.error es => Except.error es

/-- `z.string().startsWith("/")` — the registry `route` field. -/
def parseRouteField (path : String) (j : Option Json) : Except (List Issue) String :=
  match expectString path j with
  | Except.ok s =>
    if strStartsWith s "/" then Except.ok s
    else Except.error [⟨path, "Invalid string: must start with /"⟩]
  | Except.error es => Except.error es

/-- `z.string().regex(/^[a-z0-9_-]+$/)` — the frontmatter `slug` field. -/
def parseFmSlugField (path : String) (j : Option Json) : Except (List Issue) String :=
  match expectString path j with
  | Except.ok s =>
    if fmSlugPattern s then Except.ok s
    else Except.error [⟨path, "Invalid string: must match pattern"⟩]
  | Except.error es => Except.error es

/-- The optional `difficulty` enum field of the frontmatter schema. -/
def parseDifficultyField (path : String) : Option Json → Except (List Issue) (Option Difficulty)
  | none => Except.ok none
  | some (Json.str s) =>
    if s = "beginner" then Except.ok (some Difficulty.beginner)
    else if s = "intermediate" then Except.ok (some Difficulty.intermediate)
    else if s = "advanced" then Except.ok (some Difficulty.advanced)
    else Except.error [⟨path, "Invalid enum value"⟩]
  | some _ => Except.error [⟨path, "Invalid enum value"⟩]

/-- The `SystemArticleEntry` schema applied to one element of the `articles`
array. -/
def parseEntry (path : String) (j : Json) : Except (List Issue) RegistryEntry :=
  match j with
  | Json.obj fields =>
    match exceptZip (parseSlugField (path ++ ".slug") (lookupField fields "slug"))
        (exceptZip (parseRouteField (path ++ ".route") (lookupField fields "route"))
        (exceptZip (parseLocalizedString (path ++ ".name") (lookupField fields "name"))
        (exceptZip (parseOptLocalizedString (path ++ ".description") (lookupField fields "description"))
        (exceptZip (parseLocalizedKeywords (path ++ ".keywords") (lookupField fields "keywords"))
        (exceptZip (parsePinnedField (path ++ ".pinned") (lookupField fields "pinned"))
          (expectOptNumber (path ++ ".order") (lookupField fields "order"))))))) with
    | Except.ok (slug, route, name, dsc, kws, pin, ord) => Except.ok ⟨slug, route, name, dsc, kws, pin, ord⟩
    | Except.error es => Except.error es
  | _ => Except.error [⟨path, "Invalid input: expected object"⟩]

/-- The `articles` array validated element by element, issues accumulated
across elements as zod does. -/
def parseEntries (path : String) (i : Nat) : List Json → Except (List Issue) (List RegistryEntry)
  | [] => Except.ok []
  | x :: rest =>
    match exceptZip (parseEntry (path ++ "." ++ toString i) x) (parseEntries path (i + 1) rest) with
    | Except.ok (e, es) => Except.ok (e :: es)
    | Except.error errs => Except.error errs

/-- `SystemConfig.safeParse`: the whole registry schema. -/
def SystemConfig.safeParse (j : Json) : Except (List Issue) SystemConfig :=
  match j with
  | Json.obj fields =>
    match lookupField fields "articles" with
    | some (Json.arr items) =>
      match parseEntries "articles" 0 items with
      | Except.ok arts => Except.ok ⟨arts⟩
      | Except.error es => Except.error es
    | some _ => Except.error [⟨"articles", "Invalid input: expected array"⟩]
    | none => Except.error [⟨"articles", "Required"⟩]
  | _ => Except.error [⟨"", "Invalid input: expected object"⟩]

/-- `SystemArticleFrontmatter.safeParse`: the whole frontmatter schema. -/
def SystemArticleFrontmatter.safeParse (j : Json) : Except (List Issue) Frontmatter :=
  match j with
  | Json.obj fields =>
    match exceptZip (parseLocalizedString "title" (lookupField fields "title"))
        (exceptZip (parseFmSlugField "slug" (lookupField fields "slug"))
        (exceptZip (parseLocalizedKeywords "keywords" (lookupField fields "keywords"))
        (exceptZip (expectString "created" (lookupField fields "created"))
        (exceptZip (expectOptString "updated" (lookupField fields "updated"))
        (exceptZip (expectOptString "author" (lookupField fields "author"))
        (exceptZip (parseDifficultyField "difficulty" (lookupField fields "difficulty"))
          (expectOptNumber "estimatedReadTime" (lookupField fields "estimatedReadTime")))))))) with
    | Except.ok (t, sl, kw, cr, up, au, di, ert) => Except.ok ⟨t, sl, kw, cr, up, au, di, ert⟩
    | Except.error es => Except.error es
  | _ => Except.error [⟨"", "Invalid input: expected object"⟩]

/-- The result of reading and parsing one file's structured content:
`JSON.parse` / gray-matter either throws (with a message) or yields data. -/
inductive RawFile where
  | parseFail (msg : String)
  | parsed (data : Json)

/-- One entry of a locale directory listing: its name, whether `statSync`
reports a regular file, and (for files) the parse result of its contents. -/
structure DirEntry where
  name : String
  isFile : Bool
  content : RawFile

/-- The filesystem state a validation run reads: the registry file (absent, or
its parse result), whether the articles root exists, and for each locale the
directory listing (or its absence). -/
structure FS where
  configJson : Option RawFile
  articlesDirExists : Bool
  localeDir : Locale → Option (List DirEntry)

/-- Embeds `listMdxFiles`: the `.mdx` regular files directly inside a locale
directory; an absent directory yields the empty listing. -/
def listMdxFiles (fs : FS) (loc : Locale) : List DirEntry :=
  match fs.localeDir loc with
  | none => []
  | some entries => entries.filter fun e => strEndsWith e.name ".mdx" && e.isFile

/-- Embeds the `existsSync(path.join(ARTICLES_DIR, l, fname))` check used by
`crossValidate`: the locale directory exists and holds an entry of that name. -/
def articleFileExists (fs : FS) (loc : Locale) (fname : String) : Bool :=
  match fs.localeDir loc with
  | none => false
  | some entries => entries.any fun e => e.name == fname

/-- One console line the script can emit; each constructor corresponds to one
`console.*` call site of the source, carrying that call's arguments. -/
inductive Line where
  | banner1
  | banner2
  | banner3
  | headerConfig
  | errConfigNotFound
  | errConfigParse (msg : String)
  | errConfigSchema
  | errConfigIssue (path msg : String)
  | okConfigValid (n : Nat)
  | errDupSlug (slug : String)
  | errDupRoute (route : String)
  | headerStructure
  | errNoArticlesDir
  | errNoLocaleDirs
  | okLocaleDirs (dirs : List Locale)
  | headerFrontmatter
  | errFmParse (loc : Locale) (file : String) (msg : String)
  | errFmSchema (loc : Locale) (file : String)
  | errFmIssue (path msg : String)
  | errSlugMismatch (loc : Locale) (file : String) (slug : String) (expected : String)
  | okFileValid (loc : Locale) (file : String)
  | headerCross
  | okExistsIn (slug : String) (locs : List Locale)
  | errNotFound (slug : String)
  | warnOrphan (slug : String)
  | separator
  | summaryFailed (errors warns : Nat)
  | summaryPassedWarn (warns : Nat)
  | summaryAllGreen
deriving DecidableEq

/-- `localeDirs.join(", ")` and `availableLocales.join(", ")`. -/
def renderLocaleList (ls : List Locale) : String :=
  String.intercalate ", " (ls.map Locale.code)

/-- The exact text of each console line, as the source prints it. -/
def render : Line → String
  | Line.banner1 => "╔" ++ String.mk (List.replicate 46 '═') ++ "╗"
  | Line.banner2 => "║  WIKIPEFIA SYSTEM ARTICLES VALIDATOR" ++
      String.mk (List.replicate 9 ' ') ++ "║"
  | Line.banner3 => "╚" ++ String.mk (List.replicate 46 '═') ++ "╝"
  | Line.headerConfig => "\n▸ Validating config.json..."
  | Line.errConfigNotFound => "  ✗ ERROR: config.json not found"
  | Line.errConfigParse m => "  ✗ ERROR: config.json is not valid JSON: " ++ m
  | Line.errConfigSchema => "  ✗ ERROR: config.json schema validation failed:"
  | Line.errConfigIssue p m => "  ✗ ERROR:   " ++ p ++ ": " ++ m
  | Line.okConfigValid n => "  ✓ config.json valid (" ++ toString n ++ " articles registered)"
  | Line.errDupSlug s => "  ✗ ERROR: Duplicate slug: \"" ++ s ++ "\""
  | Line.errDupRoute r => "  ✗ ERROR: Duplicate route: \"" ++ r ++ "\""
  | Line.headerStructure => "\n▸ Validating repository structure..."
  | Line.errNoArticlesDir => "  ✗ ERROR: articles/ directory not found"
  | Line.errNoLocaleDirs => "  ✗ ERROR: No locale directories found in articles/"
  | Line.okLocaleDirs ds => "  ✓ Found locale directories: " ++ renderLocaleList ds
  | Line.headerFrontmatter => "\n▸ Validating MDX frontmatter..."
  | Line.errFmParse l f m =>
    "  ✗ ERROR: articles/" ++ l.code ++ "/" ++ f ++ ": Failed to parse frontmatter: " ++ m
  | Line.errFmSchema l f =>
    "  ✗ ERROR: articles/" ++ l.code ++ "/" ++ f ++ ": Frontmatter validation failed:"
  | Line.errFmIssue p m => "  ✗ ERROR:   " ++ p ++ ": " ++ m
  | Line.errSlugMismatch l f s b =>
    "  ✗ ERROR: articles/" ++ l.code ++ "/" ++ f ++ ": slug \"" ++ s ++
      "\" does not match filename \"" ++ b ++ "\""
  | Line.okFileValid l f => "  ✓ articles/" ++ l.code ++ "/" ++ f ++ " — valid"
  | Line.headerCross => "\n▸ Cross-validating config.json ↔ articles..."
  | Line.okExistsIn s ls => "  ✓ \"" ++ s ++ "\" exists in: " ++ renderLocaleList ls
  | Line.errNotFound s =>
    "  ✗ ERROR: Article \"" ++ s ++ "\" registered in config.json but no MDX file found in any locale"
  | Line.warnOrphan s =>
    "  ⚠ WARN:  MDX file \"" ++ s ++ "\" exists but is not registered in config.json articles array"
  | Line.separator => "\n" ++ String.mk (List.replicate 48 '─')
  | Line.summaryFailed e w =>
    "\n✗ Validation FAILED: " ++ toString e ++ " error(s), " ++ toString w ++ " warning(s)\n"
  | Line.summaryPassedWarn w => "\n✓ Validation passed with " ++ toString w ++ " warning(s)\n"
  | Line.summaryAllGreen => "\n✓ Validation passed — all checks green!\n"

/-- Whether a line was emitted through `logError` (and therefore incremented
the script's `errorCount`).  The failure summary uses `console.error` directly
and does not count. -/
def isErrorLine : Line → Bool
  | Line.errConfigNotFound => true
  | Line.errConfigParse _ => true
  | Line.errConfigSchema => true
  | Line.errConfigIssue _ _ => true
  | Line.errDupSlug _ => true
  | Line.errDupRoute _ => true
  | Line.errNoArticlesDir => true
  | Line.errNoLocaleDirs => true
  | Line.errFmParse _ _ _ => true
  | Line.errFmSchema _ _ => true
  | Line.errFmIssue _ _ => true
  | Line.errSlugMismatch _ _ _ _ => true
  | Line.errNotFound _ => true
  | _ => false

/-- Whether a line was emitted through `logWarn` (incrementing `warnCount`). -/
def isWarnLine : Line → Bool
  | Line.warnOrphan _ => true
  | _ => false

/-- The value of the script's `errorCount` after emitting these lines. -/
def errorCount (log : List Line) : Nat := (log.filter isErrorLine).length

/-- The value of the script's `warnCount` after emitting these lines. -/
def warnCount (log : List Line) : Nat := (log.filter isWarnLine).length

/-- The duplicate-slug / duplicate-route loop of `validateConfig`, tracking
the sets of already-seen slugs and routes. -/
def dupChecks : List RegistryEntry → List String → List String → List Line
  | [], _, _ => []
  | a :: rest, slugs, routes =>
    (if a.slug ∈ slugs then [Line.errDupSlug a.slug] else []) ++
    (if a.route ∈ routes then [Line.errDupRoute a.route] else []) ++
    dupChecks rest (a.slug :: slugs) (a.route :: routes)

/-- Embeds `validateConfig` (step 1): its log lines and its return value. -/
def validateConfig (fs : FS) : List Line × Option SystemConfig :=
  match fs.configJson with
  | none => ([Line.headerConfig, Line.errConfigNotFound], none)
  | some (RawFile.parseFail msg) => ([Line.headerConfig, Line.errConfigParse msg], none)
  | some (RawFile.parsed raw) =>
    match SystemConfig.safeParse raw with
    | Except.error issues =>
      (Line.headerConfig :: Line.errConfigSchema ::
        issues.map (fun i => Line.errConfigIssue i.path i.msg), none)
    | Except.ok cfg =>
      (Line.headerConfig :: Line.okConfigValid cfg.articles.length ::
        dupChecks cfg.articles [] [], some cfg)

/-- Embeds `validateStructure` (step 2). -/
def validateStructure (fs : FS) : List Line :=
  Line.headerStructure ::
  (if fs.articlesDirExists then
    (let dirs := LOCALES.filter fun l => (fs.localeDir l).isSome
     if dirs.isEmpty then [Line.errNoLocaleDirs] else [Line.okLocaleDirs dirs])
  else [Line.errNoArticlesDir])

/-- The per-file body of the `validateFrontmatter` loop. -/
def checkFile (loc : Locale) (e : DirEntry) : List Line :=
  match e.content with
  | RawFile.parseFail msg => [Line.errFmParse loc e.name msg]
  | RawFile.parsed data =>
    match SystemArticleFrontmatter.safeParse data with
    | Except.error issues =>
      Line.errFmSchema loc e.name :: issues.map fun i => Line.errFmIssue i.path i.msg
    | Except.ok fm =>
      if fm.slug ≠ jsBasename e.name ".mdx" then
        [Line.errSlugMismatch loc e.name fm.slug (jsBasename e.name ".mdx")]
      else [Line.okFileValid loc e.name]

/-- Sequential concatenation of the per-item output of a loop body. -/
def concatMap (f : α → List β) : List α → List β
  | [] => []
  | x :: rest => f x ++ concatMap f rest

/-- One locale's iteration of the `validateFrontmatter` loop: nothing when the
directory is absent (`continue`), otherwise every file's check in listing
order. -/
def fmSeg (fs : FS) (loc : Locale) : List Line :=
  match fs.localeDir loc with
  | none => []
  | some _ => concatMap (checkFile loc) (listMdxFiles fs loc)

/-- Embeds `validateFrontmatter` (step 3): every locale in order, skipping
absent directories. -/
def validateFrontmatter (fs : FS) : List Line :=
  Line.headerFrontmatter :: concatMap (fmSeg fs) LOCALES

/-- JS `Set.prototype.add` on an insertion-ordered deduplicated list. -/
def jsSetAdd (acc : List String) (s : String) : List String :=
  if s ∈ acc then acc else acc ++ [s]

/-- The `allArticleSlugs` set built by `crossValidate`: the base names of all
`.mdx` files across all locales, deduplicated in insertion order. -/
def allArticleSlugs (fs : FS) : List String :=
  LOCALES.foldl (fun acc loc =>
    match fs.localeDir loc with
    | none => acc
    | some _ =>
      (listMdxFiles fs loc).foldl (fun acc2 e => jsSetAdd acc2 (jsBasename e.name ".mdx")) acc) []

/-- Embeds `crossValidate` (step 4). -/
def crossValidate (fs : FS) (cfg : SystemConfig) : List Line :=
  Line.headerCross ::
  concatMap (fun a =>
    if a.slug ∈ allArticleSlugs fs then
      [Line.okExistsIn a.slug (LOCALES.filter fun l => articleFileExists fs l (a.slug ++ ".mdx"))]
    else [Line.errNotFound a.slug]) cfg.articles ++
  ((allArticleSlugs fs).filter fun s =>
    decide (s ∉ cfg.articles.map RegistryEntry.slug)).map Line.warnOrphan

/-- The cross-reference step's lines, or nothing when `validateConfig`
returned no usable config (`if (config) crossValidate(config)`). -/
def crossPart (fs : FS) : List Line :=
  match (validateConfig fs).2 with
  | some cfg => crossValidate fs cfg
  | none => []

/-- Lines emitted by `main` before the summary: banner, then the four steps in
the order the source calls them, cross-validation only when `validateConfig`
returned a usable config. -/
def bodyLines (fs : FS) : List Line :=
  [Line.banner1, Line.banner2, Line.banner3] ++
  (validateConfig fs).1 ++ validateStructure fs ++ validateFrontmatter fs ++
  crossPart fs

/-- The separator and verdict lines of `main`, chosen from the final counter
values. -/
def summaryLines (e w : Nat) : List Line :=
  Line.separator ::
  (if e > 0 then [Line.summaryFailed e w]
   else if w > 0 then [Line.summaryPassedWarn w]
   else [Line.summaryAllGreen])

/-- The full transcript of one run of `main`. -/
def run (fs : FS) : List Line :=
  bodyLines fs ++ summaryLines (errorCount (bodyLines fs)) (warnCount (bodyLines fs))

/-- The process exit status of one run: `process.exit(1)` when `errorCount`
is positive, implicit exit `0` otherwise. -/
def exitCode (fs : FS) : Nat :=
  if errorCount (bodyLines fs) > 0 then 1 else 0

/-- Number of lines satisfying a predicate — used to count specific log lines. -/
def countIf (p : Line → Bool) (l : List Line) : Nat := (l.filter p).length

/-- Recognizes a duplicate-slug error line (for any slug). -/
def isDupSlugLine : Line → Bool
  | Line.errDupSlug _ => true
  | _ => false

/-- Recognizes a duplicate-route error line (for any route). -/
def isDupRouteLine : Line → Bool
  | Line.errDupRoute _ => true
  | _ => false

/-- Recognizes the slug/filename-mismatch error line of one given file. -/
def isMismatchFor (loc : Locale) (name : String) : Line → Bool
  | Line.errSlugMismatch l f _ _ => l == loc && f == name
  | _ => false

/-- Recognizes the per-file success line of one given file. -/
def isOkValidFor (loc : Locale) (name : String) : Line → Bool
  | Line.okFileValid l f => l == loc && f == name
  | _ => false

/-- Which lines the config step can emit (used to separate the steps'
contributions to the transcript). -/
def srcConfig : Line → Bool
  | Line.headerConfig => true
  | Line.errConfigNotFound => true
  | Line.errConfigParse _ => true
  | Line.errConfigSchema => true
  | Line.errConfigIssue _ _ => true
  | Line.okConfigValid _ => true
  | Line.errDupSlug _ => true
  | Line.errDupRoute _ => true
  | _ => false

/-- Which lines the structure step can emit. -/
def srcStructure : Line → Bool
  | Line.headerStructure => true
  | Line.errNoArticlesDir => true
  | Line.errNoLocaleDirs => true
  | Line.okLocaleDirs _ => true
  | _ => false

/-- Which lines the frontmatter step can emit. -/
def srcFm : Line → Bool
  | Line.headerFrontmatter => true
  | Line.errFmParse _ _ _ => true
  | Line.errFmSchema _ _ => true
  | Line.errFmIssue _ _ => true
  | Line.errSlugMismatch _ _ _ _ => true
  | Line.okFileValid _ _ => true
  | _ => false

/-- Which lines the cross-reference step can emit. -/
def srcCross : Line → Bool
  | Line.headerCross => true
  | Line.okExistsIn _ _ => true
  | Line.errNotFound _ => true
  | Line.warnOrphan _ => true
  | _ => false

/-- Which lines the banner and summary of `main` can emit. -/
def srcMain : Line → Bool
  | Line.banner1 => true
  | Line.banner2 => true
  | Line.banner3 => true
  | Line.separator => true
  | Line.summaryFailed _ _ => true
  | Line.summaryPassedWarn _ => true
  | Line.summaryAllGreen => true
  | _ => false

/-- The name/isFile shape of the filesystem: what the directory listings show,
with file contents erased. -/
def fsShape (fs : FS) (loc : Locale) : Option (List (String × Bool)) :=
  (fs.localeDir loc).map fun es => es.map fun e => (e.name, e.isFile)

/-- A localized display name for the `faq` article. -/
def locNameFaq : Json :=
  Json.obj [("ru", Json.str "ЧаВо"), ("en", Json.str "FAQ"), ("cz", Json.str "FAQ")]

/-- Localized keyword lists for the `faq` article. -/
def locKeysFaq : Json :=
  Json.obj [("ru", Json.arr [Json.str "вопросы"]), ("en", Json.arr [Json.str "faq"]),
    ("cz", Json.arr [Json.str "faq"])]

/-- The single registry entry of Scenario A. -/
def faqEntryJson : Json :=
  Json.obj [("slug", Json.str "faq"), ("route", Json.str "/faq"), ("name", locNameFaq),
    ("keywords", locKeysFaq)]

/-- The registry file of Scenario A. -/
def configAJson : Json := Json.obj [("articles", Json.arr [faqEntryJson])]

/-- The typed registry of Scenario A, as `SystemConfig.safeParse` returns it. -/
def cfgA : SystemConfig :=
  ⟨[⟨"faq", "/faq", ⟨"ЧаВо", "FAQ", "FAQ"⟩, none, ⟨["вопросы"], ["faq"], ["faq"]⟩,
    false, none⟩]⟩

/-- Valid frontmatter for `faq.mdx`. -/
def faqFm : Json :=
  Json.obj [("title", locNameFaq), ("slug", Json.str "faq"), ("keywords", locKeysFaq),
    ("created", Json.str "2024-01-01")]

/-- Scenario A: registry registers `faq`; `articles/en/faq.mdx` and
`articles/ru/faq.mdx` exist with valid matching metadata; no `cz` file. -/
def fsA : FS where
  configJson := some (RawFile.parsed configAJson)
  articlesDirExists := true
  localeDir := fun l =>
    match l with
    | Locale.ru => some [⟨"faq.mdx", true, RawFile.parsed faqFm⟩]
    | Locale.en => some [⟨"faq.mdx", true, RawFile.parsed faqFm⟩]
    | Locale.cz => none

/-- The empty filesystem: no registry file, no articles root, no locale
directories. -/
def fs0 : FS where
  configJson := none
  articlesDirExists := false
  localeDir := fun _ => none

/-- Scenario E: the registry file exists but is not valid JSON. -/
def fsE : FS where
  configJson := some (RawFile.parseFail "SyntaxError: Unexpected token")
  articlesDirExists := true
  localeDir := fun l =>
    match l with
    | Locale.ru => some []
    | Locale.en => none
    | Locale.cz => none

/-- A minimal localized-name object used by the small test registries. -/
def locNameN : Json :=
  Json.obj [("ru", Json.str "n"), ("en", Json.str "n"), ("cz", Json.str "n")]

/-- A minimal localized-keywords object used by the small test registries. -/
def locKeysN : Json :=
  Json.obj [("ru", Json.arr []), ("en", Json.arr []), ("cz", Json.arr [])]

/-- A schema-valid registry-entry object with the given slug and route. -/
def entryJson (slug route : String) : Json :=
  Json.obj [("slug", Json.str slug), ("route", Json.str route), ("name", locNameN),
    ("keywords", locKeysN)]

/-- The typed entry that `entryJson` parses to. -/
def entryVal (slug route : String) : RegistryEntry :=
  ⟨slug, route, ⟨"n", "n", "n"⟩, none, ⟨[], [], []⟩, false, none⟩

/-- A registry with two entries sharing the slug `a`. -/
def fsDupSlug : FS where
  configJson := some (RawFile.parsed
    (Json.obj [("articles", Json.arr [entryJson "a" "/a", entryJson "a" "/b"])]))
  articlesDirExists := false
  localeDir := fun _ => none

/-- A registry with two entries sharing the route `/r` but with distinct slugs. -/
def fsDupRoute : FS where
  configJson := some (RawFile.parsed
    (Json.obj [("articles", Json.arr [entryJson "a" "/r", entryJson "b" "/r"])]))
  articlesDirExists := false
  localeDir := fun _ => none

/-- Scenario D frontmatter: schema-valid but the declared slug is `foo-bar`
while the file is `baz.mdx`. -/
def mismatchFm : Json :=
  Json.obj [("title", locNameN), ("slug", Json.str "foo-bar"), ("keywords", locKeysN),
    ("created", Json.str "2024-02-02")]

/-- The typed frontmatter that `mismatchFm` parses to. -/
def mismatchFmVal : Frontmatter :=
  ⟨⟨"n", "n", "n"⟩, "foo-bar", ⟨[], [], []⟩, "2024-02-02", none, none, none, none⟩

/-- Scenario D: `articles/en/baz.mdx` declares slug `foo-bar`; the registry is
empty. -/
def fsMismatch : FS where
  configJson := some (RawFile.parsed (Json.obj [("articles", Json.arr [])]))
  articlesDirExists := true
  localeDir := fun l =>
    match l with
    | Locale.ru => none
    | Locale.en => some [⟨"baz.mdx", true, RawFile.parsed mismatchFm⟩]
    | Locale.cz => none

/-- An empty registry with one unregistered on-disk article (`old-page.mdx`)
whose frontmatter is valid. -/
def fsOrphan : FS where
  configJson := some (RawFile.parsed (Json.obj [("articles", Json.arr [])]))
  articlesDirExists := true
  localeDir := fun l =>
    match l with
    | Locale.ru => none
    | Locale.en => some [⟨"old-page.mdx", true, RawFile.parsed
        (Json.obj [("title", locNameN), ("slug", Json.str "old-page"),
          ("keywords", locKeysN), ("created", Json.str "2023-01-01")])⟩]
    | Locale.cz => none

/-- A locale directory holding an `.mdx` file whose frontmatter fails to
parse. -/
def fsBroken : FS where
  configJson := some (RawFile.parsed (Json.obj [("articles", Json.arr [])]))
  articlesDirExists := true
  localeDir := fun l =>
    match l with
    | Locale.ru => none
    | Locale.en => some [⟨"broken.mdx", true, RawFile.parseFail "YAMLException"⟩]
    | Locale.cz => none

/-- Membership in a one-element conditional list forces the element. -/
theorem mem_singleton_ite {x u : Line} {c : Prop} [Decidable c]
    (h : x ∈ (if c then [u] else ([] : List Line))) : x = u := by
  split at h <;> simp_all

/-- Membership in the concatenation of a loop's per-item output. -/
theorem mem_concatMap {f : α → List β} {x : β} :
    ∀ {l : List α}, x ∈ concatMap f l ↔ ∃ a ∈ l, x ∈ f a := by
  intro l
  induction l with
  | nil => simp [concatMap]
  | cons a rest ih => simp [concatMap, List.mem_append, ih]

/-- Counting splits over concatenation. -/
theorem countIf_append (p : Line → Bool) (a b : List Line) :
    countIf p (a ++ b) = countIf p a + countIf p b := by
  simp [countIf, List.filter_append]

/-- A list none of whose elements match counts zero. -/
theorem countIf_eq_zero (p : Line → Bool) :
    ∀ {l : List Line}, (∀ x ∈ l, p x = false) → countIf p l = 0 := by
  intro l
  induction l with
  | nil => intro _; rfl
  | cons a rest ih =>
    intro h
    have ha : p a = false := h a (by simp)
    have hrest : ∀ x ∈ rest, p x = false := fun x hx => h x (by simp [hx])
    have htail := ih hrest
    simp only [countIf, List.filter_cons, ha, cond_false] at htail ⊢
    exact htail

/-- A loop none of whose iterations emits a matching line counts zero. -/
theorem countIf_concatMap_zero (p : Line → Bool) (f : α → List Line) :
    ∀ {l : List α}, (∀ x ∈ l, countIf p (f x) = 0) → countIf p (concatMap f l) = 0 := by
  intro l
  induction l with
  | nil => intro _; rfl
  | cons a rest ih =>
    intro h
    rw [concatMap, countIf_append, h a (by simp), ih fun x hx => h x (by simp [hx])]

/-- `errorCount` splits over concatenation. -/
theorem errorCount_append (a b : List Line) :
    errorCount (a ++ b) = errorCount a + errorCount b := by
  simp [errorCount, List.filter_append]

/-- `warnCount` splits over concatenation. -/
theorem warnCount_append (a b : List Line) :
    warnCount (a ++ b) = warnCount a + warnCount b := by
  simp [warnCount, List.filter_append]

/-- The separator and verdict lines go through `console.*` directly, not
through `logError`, so they never increment the error counter. -/
theorem errorCount_summaryLines (e w : Nat) : errorCount (summaryLines e w) = 0 := by
  unfold summaryLines
  by_cases he : e > 0 <;> by_cases hw : w > 0 <;>
    simp [he, hw, errorCount, List.filter, isErrorLine]

/-- The separator and verdict lines never increment the warning counter. -/
theorem warnCount_summaryLines (e w : Nat) : warnCount (summaryLines e w) = 0 := by
  unfold summaryLines
  by_cases he : e > 0 <;> by_cases hw : w > 0 <;>
    simp [he, hw, warnCount, List.filter, isWarnLine]

/-- The error count of the whole transcript is the error count accumulated by
the four steps. -/
theorem errorCount_run (fs : FS) : errorCount (run fs) = errorCount (bodyLines fs) := by
  rw [run, errorCount_append, errorCount_summaryLines]
  omega

/-- The warning count of the whole transcript is the warning count accumulated
by the four steps. -/
theorem warnCount_run (fs : FS) : warnCount (run fs) = warnCount (bodyLines fs) := by
  rw [run, warnCount_append, warnCount_summaryLines]
  omega

/-- Every line of the duplicate-check loop is a duplicate error. -/
theorem mem_dupChecks {x : Line} :
    ∀ (l : List RegistryEntry) (s r : List String), x ∈ dupChecks l s r →
      (∃ a, x = Line.errDupSlug a) ∨ (∃ a, x = Line.errDupRoute a) := by
  intro l
  induction l with
  | nil => intro s r h; simp [dupChecks] at h
  | cons a rest ih =>
    intro s r h
    rw [dupChecks] at h
    rcases List.mem_append.mp h with h1 | h2
    · rcases List.mem_append.mp h1 with hs | hr
      · exact Or.inl ⟨a.slug, mem_singleton_ite hs⟩
      · exact Or.inr ⟨a.route, mem_singleton_ite hr⟩
    · exact ih _ _ h2

/-- Every line the config step emits is one of its own call sites' lines. -/
theorem srcConfig_of_mem {fs : FS} {x : Line} (h : x ∈ (validateConfig fs).1) :
    srcConfig x = true := by
  unfold validateConfig at h
  split at h
  · simp at h; rcases h with h | h <;> subst h <;> rfl
  · simp at h; rcases h with h | h <;> subst h <;> rfl
  · split at h
    · simp at h
      rcases h with h | h | ⟨i, _, h⟩
      · subst h; rfl
      · subst h; rfl
      · subst h; rfl
    · simp at h
      rcases h with h | h | h
      · subst h; rfl
      · subst h; rfl
      · rcases mem_dupChecks _ _ _ h with ⟨a, ha⟩ | ⟨a, ha⟩ <;> subst ha <;> rfl

/-- Every line the structure step emits is one of its own call sites' lines. -/
theorem srcStructure_of_mem {fs : FS} {x : Line} (h : x ∈ validateStructure fs) :
    srcStructure x = true := by
  unfold validateStructure at h
  simp at h
  rcases h with h | h
  · subst h; rfl
  · split at h
    · split at h <;> simp at h <;> subst h <;> rfl
    · simp at h; subst h; rfl

/-- Every line one file's check emits is a frontmatter-step line. -/
theorem srcFm_of_mem_checkFile {loc : Locale} {e : DirEntry} {x : Line}
    (h : x ∈ checkFile loc e) : srcFm x = true := by
  unfold checkFile at h
  split at h
  · simp at h; subst h; rfl
  · split at h
    · simp at h
      rcases h with h | ⟨i, _, h⟩
      · subst h; rfl
      · subst h; rfl
    · split at h <;> simp at h <;> subst h <;> rfl

/-- Every line the frontmatter step emits is one of its own call sites'
lines. -/
theorem srcFm_of_mem {fs : FS} {x : Line} (h : x ∈ validateFrontmatter fs) :
    srcFm x = true := by
  unfold validateFrontmatter at h
  simp at h
  rcases h with h | h
  · subst h; rfl
  · rcases mem_concatMap.mp h with ⟨loc, _, hseg⟩
    unfold fmSeg at hseg
    split at hseg
    · simp at hseg
    · rcases mem_concatMap.mp hseg with ⟨e, _, hline⟩
      exact srcFm_of_mem_checkFile hline

/-- Every line the cross-reference step emits is one of its own call sites'
lines. -/
theorem srcCross_of_mem {fs : FS} {cfg : SystemConfig} {x : Line}
    (h : x ∈ crossValidate fs cfg) : srcCross x = true := by
  unfold crossValidate at h
  simp at h
  rcases h with h | h | h
  · subst h; rfl
  · rcases mem_concatMap.mp h with ⟨a, _, hline⟩
    split at hline <;> simp at hline <;> subst hline <;> rfl
  · rcases h with ⟨s, _, hs⟩
    subst hs; rfl

/-- Every banner or summary line of `main` is one of its own call sites'
lines. -/
theorem srcMain_of_mem_summaryLines {e w : Nat} {x : Line} (h : x ∈ summaryLines e w) :
    srcMain x = true := by
  unfold summaryLines at h
  simp at h
  rcases h with h | h
  · subst h; rfl
  · split at h
    · simp at h; subst h; rfl
    · split at h <;> simp at h <;> subst h <;> rfl

/-- A line the config step cannot emit is not among its lines. -/
theorem not_mem_config {fs : FS} {x : Line} (h : srcConfig x = false) :
    x ∉ (validateConfig fs).1 := fun hm => by simp [srcConfig_of_mem hm] at h

/-- A line the structure step cannot emit is not among its lines. -/
theorem not_mem_structure {fs : FS} {x : Line} (h : srcStructure x = false) :
    x ∉ validateStructure fs := fun hm => by simp [srcStructure_of_mem hm] at h

/-- A line the frontmatter step cannot emit is not among its lines. -/
theorem not_mem_fm {fs : FS} {x : Line} (h : srcFm x = false) :
    x ∉ validateFrontmatter fs := fun hm => by simp [srcFm_of_mem hm] at h

/-- A line the cross-reference step cannot emit is not among its lines. -/
theorem not_mem_cross {fs : FS} {cfg : SystemConfig} {x : Line} (h : srcCross x = false) :
    x ∉ crossValidate fs cfg := fun hm => by simp [srcCross_of_mem hm] at h

/-- A line the banner/summary cannot emit is not among the summary lines. -/
theorem not_mem_summary {e w : Nat} {x : Line} (h : srcMain x = false) :
    x ∉ summaryLines e w := fun hm => by simp [srcMain_of_mem_summaryLines hm] at h

/-- When the config step failed, the only lines of the transcript come from
the banner/summary, the config step, the structure step and the frontmatter
step. -/
theorem not_mem_run_nocross {fs : FS} (hnone : (validateConfig fs).2 = none) {x : Line}
    (hm : srcMain x = false) (hc : srcConfig x = false) (hs : srcStructure x = false)
    (hf : srcFm x = false) : x ∉ run fs := by
  intro hmem
  rw [run] at hmem
  rcases List.mem_append.mp hmem with hb | hsum
  · rw [bodyLines] at hb
    rcases List.mem_append.mp hb with hb | hcrossp
    · rcases List.mem_append.mp hb with hb | hfmp
      · rcases List.mem_append.mp hb with hb | hstp
        · rcases List.mem_append.mp hb with hban | hcfgp
          · simp at hban
            rcases hban with h1 | h1 | h1 <;> subst h1 <;> simp [srcMain] at hm
          · exact not_mem_config hc hcfgp
        · exact not_mem_structure hs hstp
      · exact not_mem_fm hf hfmp
    · simp [crossPart, hnone] at hcrossp
  · exact not_mem_summary hm hsum

/-- A one-element list is a sublist of any list starting with that element. -/
theorem single_head_sub {a : α} {t : List α} : List.Sublist [a] (a :: t) :=
  List.Sublist.cons₂ a (List.nil_sublist t)

/-- The config step's log always starts with its header. -/
theorem validateConfig_head (fs : FS) :
    ∃ t, (validateConfig fs).1 = Line.headerConfig :: t := by
  unfold validateConfig
  split
  · exact ⟨_, rfl⟩
  · exact ⟨_, rfl⟩
  · split
    · exact ⟨_, rfl⟩
    · exact ⟨_, rfl⟩

/-- The transcript splits as banner, config lines, structure lines,
frontmatter lines, and a remainder. -/
theorem run_decomp (fs : FS) :
    ∃ rest, run fs = [Line.banner1, Line.banner2, Line.banner3] ++
      ((validateConfig fs).1 ++ (validateStructure fs ++ (validateFrontmatter fs ++ rest))) :=
  ⟨crossPart fs ++ summaryLines (errorCount (bodyLines fs)) (warnCount (bodyLines fs)),
    by simp [run, bodyLines, List.append_assoc]⟩

/-- When the config step succeeded, the remainder starts with the
cross-reference lines. -/
theorem run_decomp_cross (fs : FS) (cfg : SystemConfig)
    (h : (validateConfig fs).2 = some cfg) :
    ∃ rest, run fs = [Line.banner1, Line.banner2, Line.banner3] ++
      ((validateConfig fs).1 ++ (validateStructure fs ++ (validateFrontmatter fs ++
        (crossValidate fs cfg ++ rest)))) :=
  ⟨summaryLines (errorCount (bodyLines fs)) (warnCount (bodyLines fs)),
    by simp [run, bodyLines, crossPart, h, List.append_assoc]⟩

/-- C1 (amended): the orchestrator runs the registry check (4.1) first, then
the structure check (4.2), then the metadata check (4.3), and the
cross-reference step (4.4) only when registry validation returned a usable
config; the step headers appear in the transcript in that order. -/
theorem C1_step_order (fs : FS) :
    List.Sublist [Line.headerConfig, Line.headerStructure, Line.headerFrontmatter] (run fs) ∧
    ((validateConfig fs).2 = none → Line.headerCross ∉ run fs) ∧
    (∀ cfg, (validateConfig fs).2 = some cfg →
      List.Sublist [Line.headerConfig, Line.headerStructure, Line.headerFrontmatter,
        Line.headerCross] (run fs)) := by
  obtain ⟨t1, h1⟩ := validateConfig_head fs
  have hcfg : List.Sublist [Line.headerConfig] (validateConfig fs).1 := by
    rw [h1]; exact single_head_sub
  have hstruct : List.Sublist [Line.headerStructure] (validateStructure fs) :=
    single_head_sub
  have hfm : List.Sublist [Line.headerFrontmatter] (validateFrontmatter fs) :=
    single_head_sub
  refine ⟨?_, ?_, ?_⟩
  · obtain ⟨rest, hrun⟩ := run_decomp fs
    rw [hrun]
    exact (List.Sublist.append hcfg (List.Sublist.append hstruct
      (hfm.trans (List.sublist_append_left _ rest)))).trans
      (List.sublist_append_right _ _)
  · intro hnone
    exact not_mem_run_nocross hnone rfl rfl rfl rfl
  · intro cfg hsome
    obtain ⟨rest, hrun⟩ := run_decomp_cross fs cfg hsome
    have hcross : List.Sublist [Line.headerCross] (crossValidate fs cfg) :=
      single_head_sub
    rw [hrun]
    exact (List.Sublist.append hcfg (List.Sublist.append hstruct
      (List.Sublist.append hfm (hcross.trans (List.sublist_append_left _ rest))))).trans
      (List.sublist_append_right _ _)

/-- C1 (counterexample): on the empty filesystem the config header appears
before the structure header, so the headers do not appear in the order
4.2 before 4.1 that the claim states. -/
theorem C1_counterexample :
    Line.headerConfig ∈ run fs0 ∧ Line.headerStructure ∈ run fs0 ∧
    ¬ List.Sublist [Line.headerStructure, Line.headerConfig] (run fs0) := by decide

/-- C1 (witness for the amended statement): the empty filesystem skips the
cross-reference step; Scenario A runs it after the other three. -/
theorem C1_step_order_witness :
    (List.Sublist [Line.headerConfig, Line.headerStructure, Line.headerFrontmatter]
      (run fs0) ∧ Line.headerCross ∉ run fs0) ∧
    List.Sublist [Line.headerConfig, Line.headerStructure, Line.headerFrontmatter,
      Line.headerCross] (run fsA) :=
  ⟨⟨(C1_step_order fs0).1, (C1_step_order fs0).2.1 rfl⟩,
   (C1_step_order fsA).2.2 cfgA rfl⟩

/-- C2: the process exit status is determined by the accumulated error count
alone — non-zero exactly when the error count is positive, regardless of the
warning count. -/
theorem C2_exit_status (fs : FS) :
    exitCode fs = if 0 < errorCount (run fs) then 1 else 0 := by
  rw [errorCount_run]; rfl

/-- C3 (counterexample): in Scenario A the cross-reference success line lists
the locales as `ru, en` (the `LOCALES` order), not `en, ru` as the claim
states. -/
theorem C3_counterexample :
    Line.okExistsIn "faq" [Locale.en, Locale.ru] ∉ run fsA ∧
    Line.okExistsIn "faq" [Locale.ru, Locale.en] ∈ run fsA := by decide

/-- C3 (amended): for Scenario A the cross-reference step reports the success
line `"faq" exists in: ru, en` — the two locales that hold the file, in
`LOCALES` order — and the run finishes with zero errors and zero warnings. -/
theorem C3_scenarioA :
    Line.okExistsIn "faq" [Locale.ru, Locale.en] ∈ run fsA ∧
    render (Line.okExistsIn "faq" [Locale.ru, Locale.en]) = "  ✓ \"faq\" exists in: ru, en" ∧
    errorCount (run fsA) = 0 ∧ warnCount (run fsA) = 0 := by decide

/-- C4: for a schema-valid registry of exactly two entries with identical
slugs, exactly one duplicate-slug error is reported, and none is reported
while only the first entry has been processed (the error belongs to the
second occurrence); independently, for two entries with identical routes but
distinct slugs, exactly one duplicate-route error is reported. -/
theorem C4_duplicate_reports :
    (∀ (fs : FS) (raw : Json) (cfg : SystemConfig) (e1 e2 : RegistryEntry),
      fs.configJson = some (RawFile.parsed raw) →
      SystemConfig.safeParse raw = Except.ok cfg →
      cfg.articles = [e1, e2] →
      e1.slug = e2.slug →
      countIf isDupSlugLine (validateConfig fs).1 = 1 ∧
      countIf isDupSlugLine (dupChecks [e1] [] []) = 0) ∧
    (∀ (fs : FS) (raw : Json) (cfg : SystemConfig) (e1 e2 : RegistryEntry),
      fs.configJson = some (RawFile.parsed raw) →
      SystemConfig.safeParse raw = Except.ok cfg →
      cfg.articles = [e1, e2] →
      e1.route = e2.route →
      e1.slug ≠ e2.slug →
      countIf isDupRouteLine (validateConfig fs).1 = 1) := by
  constructor
  · intro fs raw cfg e1 e2 hcj hsp harts hslug
    have hlines : (validateConfig fs).1 =
        Line.headerConfig :: Line.okConfigValid cfg.articles.length ::
          dupChecks cfg.articles [] [] := by
      simp [validateConfig, hcj, hsp]
    constructor
    · rw [hlines, harts]
      by_cases hr : e2.route = e1.route <;>
        simp [dupChecks, countIf, List.filter, isDupSlugLine, isDupRouteLine, hslug, hr]
    · simp [dupChecks, countIf, List.filter, isDupSlugLine]
  · intro fs raw cfg e1 e2 hcj hsp harts hroute hslug
    have hlines : (validateConfig fs).1 =
        Line.headerConfig :: Line.okConfigValid cfg.articles.length ::
          dupChecks cfg.articles [] [] := by
      simp [validateConfig, hcj, hsp]
    rw [hlines, harts]
    simp [dupChecks, countIf, List.filter, isDupRouteLine, isDupSlugLine, hroute,
      Ne.symm hslug]

/-- C4 (witness): concrete two-entry registries with a duplicated slug and a
duplicated route. -/
theorem C4_duplicate_reports_witness :
    countIf isDupSlugLine (validateConfig fsDupSlug).1 = 1 ∧
    countIf isDupRouteLine (validateConfig fsDupRoute).1 = 1 :=
  ⟨(C4_duplicate_reports.1 fsDupSlug
      (Json.obj [("articles", Json.arr [entryJson "a" "/a", entryJson "a" "/b"])])
      ⟨[entryVal "a" "/a", entryVal "a" "/b"]⟩
      (entryVal "a" "/a") (entryVal "a" "/b") rfl rfl rfl rfl).1,
   C4_duplicate_reports.2 fsDupRoute
      (Json.obj [("articles", Json.arr [entryJson "a" "/r", entryJson "b" "/r"])])
      ⟨[entryVal "a" "/r", entryVal "b" "/r"]⟩
      (entryVal "a" "/r") (entryVal "b" "/r") rfl rfl rfl rfl (by decide)⟩

/-- C6: when the registry file exists but does not parse, exactly one
parse-fatal error is logged by the config step, the structure and frontmatter
steps still run, the cross-reference step is skipped entirely (no referential
error, no orphan warning), and the exit status is non-zero. -/
theorem C6_unparseable_registry (fs : FS) (msg : String)
    (h : fs.configJson = some (RawFile.parseFail msg)) :
    (validateConfig fs).1 = [Line.headerConfig, Line.errConfigParse msg] ∧
    errorCount (validateConfig fs).1 = 1 ∧
    Line.headerStructure ∈ run fs ∧
    Line.headerFrontmatter ∈ run fs ∧
    Line.headerCross ∉ run fs ∧
    (∀ s, Line.errNotFound s ∉ run fs) ∧
    (∀ s, Line.warnOrphan s ∉ run fs) ∧
    exitCode fs = 1 := by
  have hcl : (validateConfig fs).1 = [Line.headerConfig, Line.errConfigParse msg] := by
    simp [validateConfig, h]
  have hnone : (validateConfig fs).2 = none := by
    simp [validateConfig, h]
  obtain ⟨rest, hrun⟩ := run_decomp fs
  refine ⟨hcl, by rw [hcl]; rfl, ?_, ?_, ?_, ?_, ?_, ?_⟩
  · rw [hrun]
    exact List.mem_append.mpr (Or.inr (List.mem_append.mpr (Or.inr
      (List.mem_append.mpr (Or.inl (List.mem_cons_self _ _))))))
  · rw [hrun]
    exact List.mem_append.mpr (Or.inr (List.mem_append.mpr (Or.inr
      (List.mem_append.mpr (Or.inr (List.mem_append.mpr
        (Or.inl (List.mem_cons_self _ _))))))))
  · exact not_mem_run_nocross hnone rfl rfl rfl rfl
  · exact fun s => not_mem_run_nocross hnone rfl rfl rfl rfl
  · exact fun s => not_mem_run_nocross hnone rfl rfl rfl rfl
  · have hmem : Line.errConfigParse msg ∈ bodyLines fs := by
      rw [bodyLines]
      exact List.mem_append.mpr (Or.inl (List.mem_append.mpr (Or.inl
        (List.mem_append.mpr (Or.inl (List.mem_append.mpr (Or.inr
          (by rw [hcl]; simp))))))))
    have hpos : 0 < errorCount (bodyLines fs) := by
      have : Line.errConfigParse msg ∈ (bodyLines fs).filter isErrorLine :=
        List.mem_filter.mpr ⟨hmem, rfl⟩
      exact List.length_pos.mpr (List.ne_nil_of_mem this)
    rw [exitCode, if_pos hpos]

/-- C6 (witness): the Scenario E filesystem. -/
theorem C6_unparseable_registry_witness :
    exitCode fsE = 1 ∧ Line.headerCross ∉ run fsE := by
  have h := C6_unparseable_registry fsE "SyntaxError: Unexpected token" rfl
  exact ⟨h.2.2.2.2.2.2.2, h.2.2.2.2.1⟩

/-- Membership after a JS `Set.add`. -/
theorem mem_jsSetAdd {a s : String} {l : List String} :
    a ∈ jsSetAdd l s ↔ a ∈ l ∨ a = s := by
  unfold jsSetAdd
  split
  · rename_i hin
    constructor
    · exact fun h => Or.inl h
    · rintro (h | rfl)
      · exact h
      · exact hin
  · simp [List.mem_append]

/-- A JS `Set.add` keeps the backing list duplicate-free. -/
theorem nodup_jsSetAdd {l : List String} (h : l.Nodup) (s : String) :
    (jsSetAdd l s).Nodup := by
  unfold jsSetAdd
  split
  · exact h
  · rename_i hn
    rw [List.nodup_append]
    refine ⟨h, List.nodup_singleton s, ?_⟩
    intro a ha hb
    simp at hb
    subst hb
    exact hn ha

/-- Membership in a fold of `Set.add` calls over the items of a loop. -/
theorem mem_foldl_jsSetAdd (g : α → String) :
    ∀ (l : List α) (acc : List String) (a : String),
      (a ∈ l.foldl (fun acc2 e => jsSetAdd acc2 (g e)) acc ↔
        a ∈ acc ∨ ∃ e ∈ l, g e = a) := by
  intro l
  induction l with
  | nil => simp
  | cons x rest ih =>
    intro acc a
    rw [List.foldl_cons, ih, mem_jsSetAdd]
    constructor
    · rintro ((h | rfl) | ⟨e, he, hg⟩)
      · exact Or.inl h
      · exact Or.inr ⟨x, by simp⟩
      · exact Or.inr ⟨e, by simp [he], hg⟩
    · rintro (h | ⟨e, he, hg⟩)
      · exact Or.inl (Or.inl h)
      · rcases List.mem_cons.mp he with rfl | he2
        · exact Or.inl (Or.inr hg.symm)
        · exact Or.inr ⟨e, he2, hg⟩

/-- A fold of `Set.add` calls keeps the backing list duplicate-free. -/
theorem nodup_foldl_jsSetAdd (g : α → String) :
    ∀ (l : List α) (acc : List String), acc.Nodup →
      (l.foldl (fun acc2 e => jsSetAdd acc2 (g e)) acc).Nodup := by
  intro l
  induction l with
  | nil => exact fun acc h => h
  | cons x rest ih =>
    intro acc h
    rw [List.foldl_cons]
    exact ih _ (nodup_jsSetAdd h (g x))

/-- Membership in the partially built `allArticleSlugs` set. -/
theorem mem_allArticleSlugsAux (fs : FS) :
    ∀ (locs : List Locale) (acc : List String) (a : String),
      (a ∈ locs.foldl (fun acc loc =>
          match fs.localeDir loc with
          | none => acc
          | some _ => (listMdxFiles fs loc).foldl
              (fun acc2 e => jsSetAdd acc2 (jsBasename e.name ".mdx")) acc) acc ↔
        a ∈ acc ∨ ∃ loc ∈ locs, ∃ e ∈ listMdxFiles fs loc, jsBasename e.name ".mdx" = a) := by
  intro locs
  induction locs with
  | nil => simp
  | cons loc rest ih =>
    intro acc a
    rw [List.foldl_cons]
    cases hd : fs.localeDir loc with
    | none =>
      simp only [hd]
      rw [ih]
      have hempty : listMdxFiles fs loc = [] := by simp [listMdxFiles, hd]
      constructor
      · rintro (h | ⟨l2, hl2, he⟩)
        · exact Or.inl h
        · exact Or.inr ⟨l2, by simp [hl2], he⟩
      · rintro (h | ⟨l2, hl2, he⟩)
        · exact Or.inl h
        · rcases List.mem_cons.mp hl2 with rfl | hl3
          · rcases he with ⟨e, he2, _⟩
            rw [hempty] at he2
            cases he2
          · exact Or.inr ⟨l2, hl3, he⟩
    | some es =>
      simp only [hd]
      rw [ih, mem_foldl_jsSetAdd]
      constructor
      · rintro ((h | ⟨e, he, hg⟩) | ⟨l2, hl2, he⟩)
        · exact Or.inl h
        · exact Or.inr ⟨loc, by simp, e, he, hg⟩
        · exact Or.inr ⟨l2, by simp [hl2], he⟩
      · rintro (h | ⟨l2, hl2, he⟩)
        · exact Or.inl (Or.inl h)
        · rcases List.mem_cons.mp hl2 with rfl | hl3
          · rcases he with ⟨e, he2, hg⟩
            exact Or.inl (Or.inr ⟨e, he2, hg⟩)
          · exact Or.inr ⟨l2, hl3, he⟩

/-- The on-disk universe contains exactly the base names of the `.mdx` files
of the locale directories. -/
theorem mem_allArticleSlugs {fs : FS} {a : String} :
    a ∈ allArticleSlugs fs ↔
      ∃ loc, ∃ e ∈ listMdxFiles fs loc, jsBasename e.name ".mdx" = a := by
  rw [allArticleSlugs, mem_allArticleSlugsAux]
  simp only [List.not_mem_nil, false_or]
  constructor
  · rintro ⟨loc, _, e, he, hg⟩
    exact ⟨loc, e, he, hg⟩
  · rintro ⟨loc, e, he, hg⟩
    exact ⟨loc, by cases loc <;> simp [LOCALES], e, he, hg⟩

/-- The on-disk universe is duplicate-free (it is a JS `Set`). -/
theorem nodup_allArticleSlugs (fs : FS) : (allArticleSlugs fs).Nodup := by
  rw [allArticleSlugs]
  have : ∀ (locs : List Locale) (acc : List String), acc.Nodup →
      (locs.foldl (fun acc loc =>
        match fs.localeDir loc with
        | none => acc
        | some _ => (listMdxFiles fs loc).foldl
            (fun acc2 e => jsSetAdd acc2 (jsBasename e.name ".mdx")) acc) acc).Nodup := by
    intro locs
    induction locs with
    | nil => exact fun acc h => h
    | cons loc rest ih =>
      intro acc h
      rw [List.foldl_cons]
      cases hd : fs.localeDir loc with
      | none => simp only [hd]; exact ih _ h
      | some es =>
        simp only [hd]
        exact ih _ (nodup_foldl_jsSetAdd _ _ _ h)
  exact this LOCALES [] List.nodup_nil

/-- Every transcript line belongs to the banner, one of the four steps, or
the summary. -/
theorem mem_run_cases {fs : FS} {x : Line} (h : x ∈ run fs) :
    x ∈ [Line.banner1, Line.banner2, Line.banner3] ∨ x ∈ (validateConfig fs).1 ∨
    x ∈ validateStructure fs ∨ x ∈ validateFrontmatter fs ∨ x ∈ crossPart fs ∨
    ∃ e w, x ∈ summaryLines e w := by
  rw [run, bodyLines] at h
  rcases List.mem_append.mp h with hb | hsum
  · rcases List.mem_append.mp hb with hb | hcrossp
    · rcases List.mem_append.mp hb with hb | hfmp
      · rcases List.mem_append.mp hb with hb | hstp
        · rcases List.mem_append.mp hb with hban | hcfgp
          · exact Or.inl hban
          · exact Or.inr (Or.inl hcfgp)
        · exact Or.inr (Or.inr (Or.inl hstp))
      · exact Or.inr (Or.inr (Or.inr (Or.inl hfmp)))
    · exact Or.inr (Or.inr (Or.inr (Or.inr (Or.inl hcrossp))))
  · exact Or.inr (Or.inr (Or.inr (Or.inr (Or.inr ⟨_, _, hsum⟩))))

/-- C7: for a schema-valid registry with zero entries, the run produces no
duplicate-slug, duplicate-route or registered-but-missing error, and each
distinct base name of the on-disk universe produces exactly one orphan
warning. -/
theorem C7_empty_registry (fs : FS) (raw : Json) (cfg : SystemConfig)
    (h1 : fs.configJson = some (RawFile.parsed raw))
    (h2 : SystemConfig.safeParse raw = Except.ok cfg)
    (h3 : cfg.articles = []) :
    (∀ s, Line.errDupSlug s ∉ run fs) ∧
    (∀ r, Line.errDupRoute r ∉ run fs) ∧
    (∀ s, Line.errNotFound s ∉ run fs) ∧
    (∀ b, (run fs).count (Line.warnOrphan b) =
      if b ∈ allArticleSlugs fs then 1 else 0) := by
  have hcl : (validateConfig fs).1 =
      [Line.headerConfig, Line.okConfigValid cfg.articles.length] := by
    simp [validateConfig, h1, h2, h3, dupChecks]
  have hsome : (validateConfig fs).2 = some cfg := by
    simp [validateConfig, h1, h2]
  have hcross : crossValidate fs cfg =
      Line.headerCross :: (allArticleSlugs fs).map Line.warnOrphan := by
    rw [crossValidate, h3]
    have hfilter : ((allArticleSlugs fs).filter fun s =>
        decide (s ∉ List.map RegistryEntry.slug [])) = allArticleSlugs fs :=
      List.filter_eq_self.mpr (by intro a _; simp)
    simp [concatMap, hfilter]
  have hcp : crossPart fs = crossValidate fs cfg := by
    simp [crossPart, hsome]
  refine ⟨?_, ?_, ?_, ?_⟩
  · intro s hmem
    rcases mem_run_cases hmem with h | h | h | h | h | ⟨e, w, h⟩
    · simp at h
    · rw [hcl] at h; simp at h
    · exact absurd (srcStructure_of_mem h) (by simp [srcStructure])
    · exact absurd (srcFm_of_mem h) (by simp [srcFm])
    · rw [hcp, hcross] at h; simp at h
    · exact absurd (srcMain_of_mem_summaryLines h) (by simp [srcMain])
  · intro r hmem
    rcases mem_run_cases hmem with h | h | h | h | h | ⟨e, w, h⟩
    · simp at h
    · rw [hcl] at h; simp at h
    · exact absurd (srcStructure_of_mem h) (by simp [srcStructure])
    · exact absurd (srcFm_of_mem h) (by simp [srcFm])
    · rw [hcp, hcross] at h; simp at h
    · exact absurd (srcMain_of_mem_summaryLines h) (by simp [srcMain])
  · intro s hmem
    rcases mem_run_cases hmem with h | h | h | h | h | ⟨e, w, h⟩
    · simp at h
    · rw [hcl] at h; simp at h
    · exact absurd (srcStructure_of_mem h) (by simp [srcStructure])
    · exact absurd (srcFm_of_mem h) (by simp [srcFm])
    · rw [hcp, hcross] at h; simp at h
    · exact absurd (srcMain_of_mem_summaryLines h) (by simp [srcMain])
  · intro b
    rw [run, bodyLines, hcp, hcross]
    repeat rw [List.count_append]
    have hban : ([Line.banner1, Line.banner2, Line.banner3] :
        List Line).count (Line.warnOrphan b) = 0 :=
      List.count_eq_zero_of_not_mem (by simp)
    have hc0 : ((validateConfig fs).1).count (Line.warnOrphan b) = 0 := by
      rw [hcl]; exact List.count_eq_zero_of_not_mem (by simp)
    have hs0 : (validateStructure fs).count (Line.warnOrphan b) = 0 :=
      List.count_eq_zero_of_not_mem (not_mem_structure rfl)
    have hf0 : (validateFrontmatter fs).count (Line.warnOrphan b) = 0 :=
      List.count_eq_zero_of_not_mem (not_mem_fm rfl)
    have hsum0 : ∀ e w, (summaryLines e w).count (Line.warnOrphan b) = 0 :=
      fun e w => List.count_eq_zero_of_not_mem (not_mem_summary rfl)
    have hinj : Function.Injective Line.warnOrphan := fun a1 a2 h12 => by
      simpa using h12
    have hmap : ((allArticleSlugs fs).map Line.warnOrphan).count (Line.warnOrphan b) =
        (allArticleSlugs fs).count b :=
      List.count_map_of_injective _ _ hinj _
    have hcons : (Line.headerCross ::
        (allArticleSlugs fs).map Line.warnOrphan).count (Line.warnOrphan b) =
        (allArticleSlugs fs).count b := by
      rw [List.count_cons]
      simp [hmap]
    rw [hban, hc0, hs0, hf0, hcons, hsum0]
    by_cases hb : b ∈ allArticleSlugs fs
    · rw [if_pos hb, List.count_eq_one_of_mem (nodup_allArticleSlugs fs) hb]
    · rw [if_neg hb, List.count_eq_zero_of_not_mem hb]

/-- C7 (witness): an empty registry with one on-disk article produces exactly
one orphan warning for that base name. -/
theorem C7_empty_registry_witness :
    (run fsOrphan).count (Line.warnOrphan "old-page") =
      if "old-page" ∈ allArticleSlugs fsOrphan then 1 else 0 :=
  (C7_empty_registry fsOrphan (Json.obj [("articles", Json.arr [])]) ⟨[]⟩
    rfl rfl rfl).2.2.2 "old-page"

/-- Two directory listings with the same names and file flags produce the same
filtered base names. -/
theorem filterMap_basenames_eq : ∀ (l1 l2 : List DirEntry),
    l1.map (fun e => (e.name, e.isFile)) = l2.map (fun e => (e.name, e.isFile)) →
    ((l1.filter fun e => strEndsWith e.name ".mdx" && e.isFile).map
      fun e => jsBasename e.name ".mdx") =
    ((l2.filter fun e => strEndsWith e.name ".mdx" && e.isFile).map
      fun e => jsBasename e.name ".mdx") := by
  intro l1
  induction l1 with
  | nil =>
    intro l2 h
    cases l2 with
    | nil => rfl
    | cons b t2 => simp at h
  | cons a t ih =>
    intro l2 h
    cases l2 with
    | nil => simp at h
    | cons b t2 =>
      simp only [List.map_cons, List.cons.injEq, Prod.mk.injEq] at h
      obtain ⟨⟨hn, hf⟩, ht⟩ := h
      have hpred : (strEndsWith a.name ".mdx" && a.isFile) =
          (strEndsWith b.name ".mdx" && b.isFile) := by rw [hn, hf]
      cases hp : (strEndsWith a.name ".mdx" && a.isFile) with
      | true =>
        have hp2 : (strEndsWith b.name ".mdx" && b.isFile) = true := by
          rw [← hpred]; exact hp
        simp only [List.filter_cons, hp, hp2, if_true, List.map_cons]
        rw [hn, ih t2 ht]
      | false =>
        have hp2 : (strEndsWith b.name ".mdx" && b.isFile) = false := by
          rw [← hpred]; exact hp
        simp only [List.filter_cons, hp, hp2, Bool.false_eq_true, if_false]
        exact ih t2 ht

/-- Folding `Set.add` of base names over entries equals folding over the
mapped base names. -/
theorem foldl_basename : ∀ (l : List DirEntry) (acc : List String),
    l.foldl (fun acc2 e => jsSetAdd acc2 (jsBasename e.name ".mdx")) acc =
    (l.map fun e => jsBasename e.name ".mdx").foldl jsSetAdd acc := by
  intro l
  induction l with
  | nil => intro acc; rfl
  | cons a t ih => intro acc; simp [List.foldl_cons, ih]

/-- The on-disk universe depends only on the names and file flags of the
directory listings, never on file contents or validation outcomes. -/
theorem allArticleSlugs_shape {fs fs' : FS}
    (h : ∀ loc, fsShape fs loc = fsShape fs' loc) :
    allArticleSlugs fs = allArticleSlugs fs' := by
  have hstep : ∀ (loc : Locale) (acc : List String),
      (match fs.localeDir loc with
       | none => acc
       | some _ => (listMdxFiles fs loc).foldl
           (fun acc2 (e : DirEntry) => jsSetAdd acc2 (jsBasename e.name ".mdx")) acc) =
      (match fs'.localeDir loc with
       | none => acc
       | some _ => (listMdxFiles fs' loc).foldl
           (fun acc2 (e : DirEntry) => jsSetAdd acc2 (jsBasename e.name ".mdx")) acc) := by
    intro loc acc
    have hl := h loc
    unfold fsShape at hl
    cases hd1 : fs.localeDir loc with
    | none =>
      cases hd2 : fs'.localeDir loc with
      | none => simp
      | some es2 => rw [hd1, hd2] at hl; simp at hl
    | some es1 =>
      cases hd2 : fs'.localeDir loc with
      | none => rw [hd1, hd2] at hl; simp at hl
      | some es2 =>
        rw [hd1, hd2] at hl
        simp only [Option.map_some', Option.some.injEq] at hl
        simp only
        have hm1 : listMdxFiles fs loc =
            es1.filter fun e => strEndsWith e.name ".mdx" && e.isFile := by
          simp [listMdxFiles, hd1]
        have hm2 : listMdxFiles fs' loc =
            es2.filter fun e => strEndsWith e.name ".mdx" && e.isFile := by
          simp [listMdxFiles, hd2]
        rw [foldl_basename, foldl_basename, hm1, hm2,
          filterMap_basenames_eq es1 es2 hl]
  have key : ∀ (locs : List Locale) (acc : List String),
      (locs.foldl (fun acc loc =>
        match fs.localeDir loc with
        | none => acc
        | some _ => (listMdxFiles fs loc).foldl
            (fun acc2 e => jsSetAdd acc2 (jsBasename e.name ".mdx")) acc) acc) =
      (locs.foldl (fun acc loc =>
        match fs'.localeDir loc with
        | none => acc
        | some _ => (listMdxFiles fs' loc).foldl
            (fun acc2 e => jsSetAdd acc2 (jsBasename e.name ".mdx")) acc) acc) := by
    intro locs
    induction locs with
    | nil => intro acc; rfl
    | cons loc rest ih =>
      intro acc
      rw [List.foldl_cons, List.foldl_cons, hstep loc acc, ih]
  exact key LOCALES []

/-- C9: every `.mdx` regular file directly inside an existing locale directory
contributes its base name to the cross-reference on-disk universe, whatever
its contents; the universe is a function of the directory shape alone. -/
theorem C9_inventory_independent (fs : FS) (loc : Locale) (es : List DirEntry)
    (e : DirEntry) (hdir : fs.localeDir loc = some es) (he : e ∈ es)
    (hmdx : strEndsWith e.name ".mdx" = true) (hfile : e.isFile = true) :
    jsBasename e.name ".mdx" ∈ allArticleSlugs fs ∧
    ∀ fs' : FS, (∀ l, fsShape fs l = fsShape fs' l) →
      allArticleSlugs fs = allArticleSlugs fs' := by
  constructor
  · apply mem_allArticleSlugs.mpr
    refine ⟨loc, e, ?_, rfl⟩
    have hlist : listMdxFiles fs loc =
        es.filter fun x => strEndsWith x.name ".mdx" && x.isFile := by
      simp [listMdxFiles, hdir]
    rw [hlist]
    exact List.mem_filter.mpr ⟨he, by rw [hmdx, hfile]; rfl⟩
  · exact fun fs' h => allArticleSlugs_shape h

/-- C9 (witness): a file whose frontmatter fails to parse still appears in the
on-disk universe under its base name. -/
theorem C9_inventory_independent_witness :
    jsBasename "broken.mdx" ".mdx" ∈ allArticleSlugs fsBroken :=
  (C9_inventory_independent fsBroken Locale.en
    [⟨"broken.mdx", true, RawFile.parseFail "YAMLException"⟩]
    ⟨"broken.mdx", true, RawFile.parseFail "YAMLException"⟩
    rfl (by simp) (by decide) rfl).1

/-- A non-matching head drops out of the count. -/
theorem countIf_cons_false {p : Line → Bool} {y : Line} (l : List Line)
    (h : p y = false) : countIf p (y :: l) = countIf p l := by
  simp [countIf, List.filter_cons, h]

/-- Each transcript line of the frontmatter step is counted within its
locale's segment. -/
theorem countIf_fm (p : Line → Bool) (fs : FS) (hhead : p Line.headerFrontmatter = false) :
    countIf p (validateFrontmatter fs) =
      countIf p (fmSeg fs Locale.ru) + countIf p (fmSeg fs Locale.en) +
        countIf p (fmSeg fs Locale.cz) := by
  rw [validateFrontmatter, countIf_cons_false _ hhead]
  have hsplit : concatMap (fmSeg fs) LOCALES =
      fmSeg fs Locale.ru ++ (fmSeg fs Locale.en ++ (fmSeg fs Locale.cz ++ [])) := rfl
  rw [hsplit, countIf_append, countIf_append, countIf_append]
  have : countIf p [] = 0 := rfl
  omega

/-- A locale segment none of whose files emit matching lines counts zero. -/
theorem countIf_fmSeg_zero (p : Line → Bool) (fs : FS) (loc : Locale)
    (h : ∀ e ∈ listMdxFiles fs loc, countIf p (checkFile loc e) = 0) :
    countIf p (fmSeg fs loc) = 0 := by
  unfold fmSeg
  split
  · rfl
  · exact countIf_concatMap_zero p _ h

/-- Every line one file's check emits carries that file's locale and name (or
is an itemized issue line). -/
theorem mem_checkFile_shape {loc : Locale} {e : DirEntry} {x : Line}
    (h : x ∈ checkFile loc e) :
    (∃ m, x = Line.errFmParse loc e.name m) ∨ x = Line.errFmSchema loc e.name ∨
    (∃ p m, x = Line.errFmIssue p m) ∨
    (∃ s, x = Line.errSlugMismatch loc e.name s (jsBasename e.name ".mdx")) ∨
    x = Line.okFileValid loc e.name := by
  unfold checkFile at h
  split at h
  · simp at h
    exact Or.inl ⟨_, h⟩
  · split at h
    · simp at h
      rcases h with h | ⟨i, _, h⟩
      · exact Or.inr (Or.inl h)
      · exact Or.inr (Or.inr (Or.inl ⟨_, _, h.symm⟩))
    · split at h <;> simp at h
      · exact Or.inr (Or.inr (Or.inr (Or.inl ⟨_, h⟩)))
      · exact Or.inr (Or.inr (Or.inr (Or.inr h)))

/-- A file with a different locale or name contributes no mismatch line for
the given file. -/
theorem countIf_mismatch_other {loc loc' : Locale} {name : String} {e : DirEntry}
    (hcase : loc ≠ loc' ∨ e.name ≠ name) :
    countIf (isMismatchFor loc' name) (checkFile loc e) = 0 := by
  apply countIf_eq_zero
  intro x hx
  rcases mem_checkFile_shape hx with ⟨m, rfl⟩ | rfl | ⟨p, m, rfl⟩ | ⟨s, rfl⟩ | rfl <;>
    try rfl
  rcases hcase with h | h <;> simp [isMismatchFor, h]

/-- A file with a different locale or name contributes no success line for
the given file. -/
theorem countIf_okvalid_other {loc loc' : Locale} {name : String} {e : DirEntry}
    (hcase : loc ≠ loc' ∨ e.name ≠ name) :
    countIf (isOkValidFor loc' name) (checkFile loc e) = 0 := by
  apply countIf_eq_zero
  intro x hx
  rcases mem_checkFile_shape hx with ⟨m, rfl⟩ | rfl | ⟨p, m, rfl⟩ | ⟨s, rfl⟩ | rfl <;>
    try rfl
  rcases hcase with h | h <;> simp [isOkValidFor, h]

/-- In a listing with duplicate-free names, entries are determined by their
name. -/
theorem eq_of_mem_name : ∀ {l : List DirEntry}, (l.map DirEntry.name).Nodup →
    ∀ {a b : DirEntry}, a ∈ l → b ∈ l → a.name = b.name → a = b := by
  intro l
  induction l with
  | nil => intro _ a b ha; cases ha
  | cons x t ih =>
    intro hnd a b ha hb h
    have hhead := (List.nodup_cons.mp hnd).1
    rcases List.mem_cons.mp ha with rfl | hat <;> rcases List.mem_cons.mp hb with rfl | hbt
    · rfl
    · exact absurd (List.mem_map.mpr ⟨b, hbt, h.symm⟩) hhead
    · exact absurd (List.mem_map.mpr ⟨a, hat, h⟩) hhead
    · exact ih (List.nodup_cons.mp hnd).2 hat hbt h

/-- If exactly one file of a listing emits exactly one matching line and files
with other names emit none, the loop emits exactly one. -/
theorem countIf_concatMap_single (p : Line → Bool) (f : DirEntry → List Line) :
    ∀ (files : List DirEntry) (e : DirEntry), e ∈ files →
      (files.map DirEntry.name).Nodup →
      countIf p (f e) = 1 →
      (∀ x ∈ files, x.name ≠ e.name → countIf p (f x) = 0) →
      countIf p (concatMap f files) = 1 := by
  intro files
  induction files with
  | nil => intro e he; cases he
  | cons a t ih =>
    intro e he hnd hone hzero
    rw [concatMap, countIf_append]
    have hhead := (List.nodup_cons.mp hnd).1
    by_cases hname : a.name = e.name
    · have hea : e = a := by
        rcases List.mem_cons.mp he with rfl | het
        · rfl
        · exact absurd (hname ▸ List.mem_map.mpr ⟨e, het, rfl⟩) hhead
      subst hea
      rw [hone]
      have hzt : countIf p (concatMap f t) = 0 := by
        apply countIf_concatMap_zero
        intro x hx
        refine hzero x (List.mem_cons_of_mem _ hx) fun heq => ?_
        exact hhead (heq ▸ List.mem_map.mpr ⟨x, hx, rfl⟩)
      rw [hzt]
    · have h0 := hzero a (List.mem_cons_self a t) hname
      have het : e ∈ t := by
        rcases List.mem_cons.mp he with rfl | het
        · exact absurd rfl hname
        · exact het
      rw [h0, ih e het (List.nodup_cons.mp hnd).2 hone
        fun x hx => hzero x (List.mem_cons_of_mem a hx)]

/-- C5: a schema-valid metadata block whose slug differs from the file's base
name yields exactly one slug-mismatch error for that file and no per-file
success line, and the file still enters the cross-reference universe under
its base name — the universe holds only file base names, never the declared
slug of a mismatched block. -/
theorem C5_slug_mismatch (fs : FS) (loc : Locale) (es : List DirEntry) (e : DirEntry)
    (data : Json) (fm : Frontmatter)
    (hdir : fs.localeDir loc = some es)
    (hnd : (es.map DirEntry.name).Nodup)
    (he : e ∈ es)
    (hmdx : strEndsWith e.name ".mdx" = true)
    (hfile : e.isFile = true)
    (hcontent : e.content = RawFile.parsed data)
    (hparse : SystemArticleFrontmatter.safeParse data = Except.ok fm)
    (hmm : fm.slug ≠ jsBasename e.name ".mdx") :
    checkFile loc e = [Line.errSlugMismatch loc e.name fm.slug (jsBasename e.name ".mdx")] ∧
    countIf (isMismatchFor loc e.name) (validateFrontmatter fs) = 1 ∧
    countIf (isOkValidFor loc e.name) (validateFrontmatter fs) = 0 ∧
    jsBasename e.name ".mdx" ∈ allArticleSlugs fs ∧
    (∀ s ∈ allArticleSlugs fs, ∃ loc2 e2, e2 ∈ listMdxFiles fs loc2 ∧
      jsBasename e2.name ".mdx" = s) := by
  have hchk : checkFile loc e =
      [Line.errSlugMismatch loc e.name fm.slug (jsBasename e.name ".mdx")] := by
    simp [checkFile, hcontent, hparse, hmm]
  have hlist : listMdxFiles fs loc =
      es.filter fun x => strEndsWith x.name ".mdx" && x.isFile := by
    simp [listMdxFiles, hdir]
  have hefiles : e ∈ listMdxFiles fs loc := by
    rw [hlist]
    exact List.mem_filter.mpr ⟨he, by rw [hmdx, hfile]; rfl⟩
  have hndfiles : ((listMdxFiles fs loc).map DirEntry.name).Nodup := by
    rw [hlist]
    exact List.Nodup.sublist (List.Sublist.map _ (List.filter_sublist es)) hnd
  have hsegTarget : countIf (isMismatchFor loc e.name) (fmSeg fs loc) = 1 := by
    unfold fmSeg
    rw [hdir]
    simp only
    refine countIf_concatMap_single _ _ _ e hefiles hndfiles ?_ ?_
    · rw [hchk]
      simp [countIf, List.filter, isMismatchFor]
    · exact fun x _ hne => countIf_mismatch_other (Or.inr hne)
  have hsegOther : ∀ loc2, loc2 ≠ loc →
      countIf (isMismatchFor loc e.name) (fmSeg fs loc2) = 0 := by
    intro loc2 hne
    exact countIf_fmSeg_zero _ _ _ fun x _ => countIf_mismatch_other (Or.inl hne)
  refine ⟨hchk, ?_, ?_, ?_, ?_⟩
  · rw [countIf_fm _ _ rfl]
    cases loc with
    | ru => rw [hsegTarget, hsegOther Locale.en (by decide), hsegOther Locale.cz (by decide)]
    | en => rw [hsegTarget, hsegOther Locale.ru (by decide), hsegOther Locale.cz (by decide)]
    | cz => rw [hsegTarget, hsegOther Locale.ru (by decide), hsegOther Locale.en (by decide)]
  · rw [countIf_fm _ _ rfl]
    have hz : ∀ loc2, countIf (isOkValidFor loc e.name) (fmSeg fs loc2) = 0 := by
      intro loc2
      by_cases hl : loc2 = loc
      · subst hl
        unfold fmSeg
        rw [hdir]
        simp only
        apply countIf_concatMap_zero
        intro x hx
        by_cases hn : x.name = e.name
        · have hx2 : x = e := eq_of_mem_name hndfiles hx hefiles hn
          subst hx2
          rw [hchk]
          rfl
        · exact countIf_okvalid_other (Or.inr hn)
      · exact countIf_fmSeg_zero _ _ _ fun x _ => countIf_okvalid_other (Or.inl hl)
    rw [hz Locale.ru, hz Locale.en, hz Locale.cz]
  · exact mem_allArticleSlugs.mpr ⟨loc, e, hefiles, rfl⟩
  · intro s hs
    rcases mem_allArticleSlugs.mp hs with ⟨loc2, e2, he2, hb⟩
    exact ⟨loc2, e2, he2, hb⟩

/-- C5 (witness): Scenario D — `articles/en/baz.mdx` declaring slug
`foo-bar`. -/
theorem C5_slug_mismatch_witness :
    countIf (isMismatchFor Locale.en "baz.mdx") (validateFrontmatter fsMismatch) = 1 ∧
    countIf (isOkValidFor Locale.en "baz.mdx") (validateFrontmatter fsMismatch) = 0 ∧
    jsBasename "baz.mdx" ".mdx" ∈ allArticleSlugs fsMismatch := by
  have h := C5_slug_mismatch fsMismatch Locale.en
    [⟨"baz.mdx", true, RawFile.parsed mismatchFm⟩]
    ⟨"baz.mdx", true, RawFile.parsed mismatchFm⟩
    mismatchFm mismatchFmVal rfl (by simp) (by simp) (by decide) rfl rfl rfl
    (by decide)
  exact ⟨h.2.1, h.2.2.1, h.2.2.2.1⟩

/-- Strings with equal character data are equal. -/
theorem string_eq_of_data {a b : String} (h : a.data = b.data) : a = b := by
  cases a; cases b; exact congrArg String.mk h

/-- Inversion of the issue-accumulating pair combinator. -/
theorem exceptZip_ok {x : Except (List Issue) α} {y : Except (List Issue) β}
    {a : α} {b : β} (h : exceptZip x y = Except.ok (a, b)) :
    x = Except.ok a ∧ y = Except.ok b := by
  cases x with
  | error e1 => cases y <;> simp [exceptZip] at h
  | ok xa =>
    cases y with
    | error e2 => simp [exceptZip] at h
    | ok yb =>
      simp [exceptZip] at h
      exact ⟨by rw [h.1], by rw [h.2]⟩

/-- A slug accepted by the registry slug field matches the slug pattern. -/
theorem parseSlugField_ok {p : String} {j : Option Json} {s : String}
    (h : parseSlugField p j = Except.ok s) : slugPattern s = true := by
  unfold parseSlugField at h
  split at h
  · split at h
    · rename_i hpat
      simp at h
      subst h
      exact hpat
    · simp at h
  · simp at h

/-- A registry entry accepted by the schema has a pattern-valid slug. -/
theorem parseEntry_ok {path : String} {j : Json} {ent : RegistryEntry}
    (h : parseEntry path j = Except.ok ent) : slugPattern ent.slug = true := by
  unfold parseEntry at h
  split at h
  · split at h
    · rename_i heq
      obtain ⟨h1, _⟩ := exceptZip_ok heq
      simp at h
      subst h
      exact parseSlugField_ok h1
    · simp at h
  · simp at h

/-- Every entry of an accepted `articles` array has a pattern-valid slug. -/
theorem parseEntries_ok : ∀ {items : List Json} {path : String} {i : Nat}
    {arts : List RegistryEntry}, parseEntries path i items = Except.ok arts →
    ∀ a ∈ arts, slugPattern a.slug = true := by
  intro items
  induction items with
  | nil =>
    intro path i arts h a ha
    simp [parseEntries] at h
    subst h
    cases ha
  | cons x rest ih =>
    intro path i arts h a ha
    unfold parseEntries at h
    split at h
    · rename_i heq
      obtain ⟨h1, h2⟩ := exceptZip_ok heq
      simp at h
      subst h
      rcases List.mem_cons.mp ha with rfl | hmem
      · exact parseEntry_ok h1
      · exact ih h2 a hmem
    · simp at h

/-- Every entry of a schema-accepted registry has a pattern-valid slug. -/
theorem safeParse_slugs {raw : Json} {cfg : SystemConfig}
    (h : SystemConfig.safeParse raw = Except.ok cfg) :
    ∀ a ∈ cfg.articles, slugPattern a.slug = true := by
  unfold SystemConfig.safeParse at h
  split at h
  · split at h
    · split at h
      · rename_i heq
        simp at h
        subst h
        exact fun a ha => parseEntries_ok heq a ha
      · simp at h
    · simp at h
    · simp at h
  · simp at h

/-- A string ending in a suffix splits into its remaining part and the
suffix. -/
theorem strEndsWith_decomp {f ext : String} (h : strEndsWith f ext = true) :
    f.data = f.data.take (f.data.length - ext.data.length) ++ ext.data := by
  unfold strEndsWith at h
  rw [Bool.and_eq_true] at h
  obtain ⟨_, hdrop⟩ := h
  have hd : f.data.drop (f.data.length - ext.data.length) = ext.data := eq_of_beq hdrop
  conv_lhs => rw [← List.take_append_drop (f.data.length - ext.data.length) f.data]
  rw [hd]

/-- Re-appending the stripped extension to a node basename recovers the file
name (when the name is not the bare extension). -/
theorem jsBasename_spec {f ext : String} (h : strEndsWith f ext = true)
    (hne : f ≠ ext) : jsBasename f ext ++ ext = f := by
  have hbne : (f != ext) = true := by simp [bne_iff_ne, hne]
  have hcond : (strEndsWith f ext && f != ext) = true := by rw [h, hbne]; rfl
  unfold jsBasename
  rw [hcond]
  simp only [if_true]
  apply string_eq_of_data
  have hl : (String.mk (f.data.take (f.data.length - ext.data.length)) ++ ext).data =
      f.data.take (f.data.length - ext.data.length) ++ ext.data := rfl
  rw [hl, ← strEndsWith_decomp h]

/-- A pattern-valid slug is never the bare `.mdx` extension. -/
theorem slugPattern_ne_ext {s : String} (h : slugPattern s = true) : s ≠ ".mdx" := by
  intro heq
  subst heq
  exact absurd h (by decide)

/-- Inversion of a cross-reference success line: it comes from a registry
entry whose slug is in the on-disk universe, and its locale list is the
re-derived existence filter. -/
theorem okExistsIn_inv {fs : FS} {cfg : SystemConfig} {s : String} {ls : List Locale}
    (h : Line.okExistsIn s ls ∈ crossValidate fs cfg) :
    ∃ a ∈ cfg.articles, a.slug = s ∧ a.slug ∈ allArticleSlugs fs ∧
      ls = LOCALES.filter fun l => articleFileExists fs l (a.slug ++ ".mdx") := by
  unfold crossValidate at h
  rcases List.mem_cons.mp h with heq | h2
  · simp at heq
  · rcases List.mem_append.mp h2 with hin | horph
    · rcases mem_concatMap.mp hin with ⟨a, ha, hline⟩
      split at hline
      · rename_i hmem
        simp at hline
        exact ⟨a, ha, hline.1.symm, hmem, hline.2⟩
      · simp at hline
    · simp at horph

/-- C10: whenever the cross-reference step of a schema-accepted registry
reports that a registered slug exists on disk, the locale list it re-derives
by direct existence checks is non-empty. -/
theorem C10_exists_nonempty (fs : FS) (raw : Json) (cfg : SystemConfig)
    (s : String) (ls : List Locale)
    (hcfg : SystemConfig.safeParse raw = Except.ok cfg)
    (hmem : Line.okExistsIn s ls ∈ crossValidate fs cfg) :
    ls ≠ [] := by
  obtain ⟨a, ha, _, hdisk, hls⟩ := okExistsIn_inv hmem
  have hpat : slugPattern a.slug = true := safeParse_slugs hcfg a ha
  rcases mem_allArticleSlugs.mp hdisk with ⟨loc, e, hefiles, hb⟩
  have hdirsome : ∃ es, fs.localeDir loc = some es ∧ e ∈ es ∧
      (strEndsWith e.name ".mdx" && e.isFile) = true := by
    revert hefiles
    unfold listMdxFiles
    cases hd : fs.localeDir loc with
    | none => intro hef; cases hef
    | some es =>
      intro hef
      exact ⟨es, rfl, (List.mem_filter.mp hef).1, (List.mem_filter.mp hef).2⟩
  obtain ⟨es, hdir, hees, hpred⟩ := hdirsome
  have hend : strEndsWith e.name ".mdx" = true := by
    rw [Bool.and_eq_true] at hpred
    exact hpred.1
  by_cases hdot : e.name = ".mdx"
  · exfalso
    rw [hdot] at hb
    have hval : jsBasename ".mdx" ".mdx" = ".mdx" := by decide
    rw [hval] at hb
    exact slugPattern_ne_ext hpat hb.symm
  · have hnm : e.name = a.slug ++ ".mdx" := by
      have hspec := jsBasename_spec hend hdot
      rw [hb] at hspec
      exact hspec.symm
    have hex : articleFileExists fs loc (a.slug ++ ".mdx") = true := by
      unfold articleFileExists
      rw [hdir]
      exact List.any_eq_true.mpr ⟨e, hees, by rw [hnm]; exact beq_self_eq_true _⟩
    have hlocmem : loc ∈ LOCALES.filter fun l =>
        articleFileExists fs l (a.slug ++ ".mdx") :=
      List.mem_filter.mpr ⟨by cases loc <;> simp [LOCALES], hex⟩
    rw [hls]
    exact List.ne_nil_of_mem hlocmem

/-- C10 (witness): the Scenario A success line names the non-empty locale
list `[ru, en]`. -/
theorem C10_exists_nonempty_witness :
    Line.okExistsIn "faq" [Locale.ru, Locale.en] ∈ crossValidate fsA cfgA ∧
    ([Locale.ru, Locale.en] : List Locale) ≠ [] :=
  ⟨by decide,
   C10_exists_nonempty fsA configAJson cfgA "faq" [Locale.ru, Locale.en] rfl (by decide)⟩

/-- C8: the pipeline is a pure function of the filesystem it reads — two runs
over equal inputs produce the same transcript, the same error and warning
counts, and the same exit status. -/
theorem C8_deterministic (fs1 fs2 : FS) (h : fs1 = fs2) :
    run fs1 = run fs2 ∧ errorCount (run fs1) = errorCount (run fs2) ∧
    warnCount (run fs1) = warnCount (run fs2) ∧ exitCode fs1 = exitCode fs2 := by
  subst h
  exact ⟨rfl, rfl, rfl, rfl⟩

/-- C8 (witness): two runs over the Scenario A filesystem agree. -/
theorem C8_deterministic_witness :
    run fsA = run fsA ∧ errorCount (run fsA) = errorCount (run fsA) ∧
    warnCount (run fsA) = warnCount (run fsA) ∧ exitCode fsA = exitCode fsA :=
  C8_deterministic fsA fsA rfl

end ValidateContent
